import Mathlib

/-!
Verification development for the `go_reel_docs` repository core: a
bounded-concurrency filesystem crawler (`src/实现/testHighPerformance.js`,
class `FastDirectoryScanner`) together with the repository's documented
fast-hash algorithm (`src/实现/hash算法.md`, function `calculateFastHash`).

The JavaScript code is shallowly embedded: machine integers are `Nat` with
explicit `% 2 ^ 64` / `% 2 ^ 8` where overflow or byte width matters, file
contents are functions `Nat → Nat` from byte offset to byte value, the
scanner's mutable instance fields become an explicit `ScanState` record that
is threaded through the translated methods, and the asynchronous promise
queue is modelled both as a sequential queue runner (for the functional
results, which do not depend on the interleaving) and as a small-step
transition relation (for the concurrency-cap invariant).
-/

namespace FastHash

/-- FNV-1a 64-bit offset basis, `0xcbf29ce484222325` in `hash算法.md`. -/
def FNV_OFFSET : Nat := 0xcbf29ce484222325

/-- FNV-1a 64-bit prime, `0x100000001b3` in `hash算法.md`. -/
def FNV_PRIME : Nat := 0x100000001b3

/-- One FNV-1a step: xor the byte in, multiply by the prime, truncate to
64 bits (`hash = BigInt.asUintN(64, hash * FNV_PRIME)` in the source). -/
def fnvStep (h b : Nat) : Nat := ((h ^^^ b) * FNV_PRIME) % 2 ^ 64

/-- Function `fnv1a64(buffer, seed)` from `hash算法.md`: fold the FNV-1a step over the
bytes of the buffer, starting from the seed. -/
def fnv1a64 (buffer : List Nat) (seed : Nat) : Nat :=
  buffer.foldl fnvStep seed

/-- Constant `CONFIG.THRESHOLD` (10 KiB) from `hash算法.md`. -/
def THRESHOLD : Nat := 10 * 1024

/-- Constant `CONFIG.BLOCK_SIZE` (2 KiB) from `hash算法.md`. -/
def BLOCK_SIZE : Nat := 2 * 1024

/-- The `len` bytes of a file starting at offset `off`, where the file's
bytes are given by the function `content`. -/
def readWindow (content : Nat → Nat) (off len : Nat) : List Nat :=
  (List.range len).map (fun i => content (off + i))

/-- The bytes `calculateFastHash` feeds to the first `fnv1a64` pass: the
whole file when `fileSize < THRESHOLD`, otherwise the head, mid and tail
windows of `BLOCK_SIZE` bytes each (the mid offset is
`floor(size/2) - floor(blockSize/2)`, the tail offset `size - blockSize`). -/
def fastHashBytes (content : Nat → Nat) (fileSize : Nat) : List Nat :=
  if fileSize < THRESHOLD then
    readWindow content 0 fileSize
  else
    readWindow content 0 BLOCK_SIZE ++
      readWindow content (fileSize / 2 - BLOCK_SIZE / 2) BLOCK_SIZE ++
      readWindow content (fileSize - BLOCK_SIZE) BLOCK_SIZE

/-- The file size serialized as a fixed 8-byte little-endian buffer
(`sizeBuffer.writeBigUInt64LE(BigInt(fileSize))` in the source). -/
def sizeBufferLE (fileSize : Nat) : List Nat :=
  (List.range 8).map (fun i => fileSize / 2 ^ (8 * i) % 2 ^ 8)

/-- One lowercase hexadecimal digit character for a value below 16. -/
def hexDigit (n : Nat) : Char :=
  if n < 10 then Char.ofNat (48 + n) else Char.ofNat (87 + n)

/-- A 64-bit value rendered as a 16-character zero-padded lowercase
hexadecimal string.  For `v < 2 ^ 64` this is exactly
`v.toString(16).padStart(16, '0')` from the source: the sixteen hex digits
of `v`, most significant first, with leading zeros kept. -/
def toHexPad16 (v : Nat) : String :=
  String.mk ((List.range 16).map (fun i => hexDigit (v / 16 ^ (15 - i) % 16)))

/-- Function `calculateFastHash` from `hash算法.md`, as a function of the file's
bytes and size: pass 1 hashes the sampled (or full) bytes with `fnv1a64`
from the offset basis, pass 2 feeds the 8-byte little-endian file size
through `fnv1a64` seeded with the pass-1 result, and the 64-bit outcome is
rendered as a 16-character zero-padded lowercase hex string. -/
def calculateFastHash (content : Nat → Nat) (fileSize : Nat) : String :=
  toHexPad16 (fnv1a64 (sizeBufferLE fileSize) (fnv1a64 (fastHashBytes content fileSize) FNV_OFFSET))

/-- The list of the sixteen lowercase hexadecimal digit characters. -/
def hexChars : List Char := "0123456789abcdef".data

end FastHash

namespace Scanner

/-- The scanner's options object (constructor of `FastDirectoryScanner`,
lines 7–15): `maxConcurrency`, `batchSize`, `hashThreshold`,
`hashSampleSize`, `enableHash`, plus the optional `sortAlgorithm` read by
`_sortFilesByCreateTime` (absent from the defaults object, so `none` by
default; the quick-sort branch triggers on the exact string `"quick"`). -/
structure ScanOptions where
  maxConcurrency : Nat
  batchSize : Nat
  hashThreshold : Nat
  hashSampleSize : Nat
  enableHash : Bool
  sortAlgorithm : Option String
deriving DecidableEq

/-- The constructor's default options: concurrency 200, batch 50,
threshold 10 KiB, sample 2 KiB, hashing off, no `sortAlgorithm`. -/
def defaultOptions : ScanOptions := ⟨200, 50, 10 * 1024, 2 * 1024, false, none⟩

/-- A regular file of the modelled filesystem: its directory-entry name,
`fs.promises.stat` metadata (size, birthtime/mtime/atime as natural-number
timestamps), its bytes as a function from offset to byte value, and two
environment flags: whether `stat` succeeds (`statOk`) and whether byte
reads during hashing succeed (`readOk`). -/
structure FileNode where
  name : String
  size : Nat
  createTime : Nat
  modifyTime : Nat
  accessTime : Nat
  content : Nat → Nat
  statOk : Bool
  readOk : Bool

/-- A directory entry as seen by `fs.promises.readdir(..., withFileTypes)`:
either a regular file, or a directory whose own `readdir` either succeeds
with a listing (`some`) or fails (`none`, e.g. permission error). -/
inductive FSEntry where
  | file : FileNode → FSEntry
  | dir : String → Option (List FSEntry) → FSEntry

/-- The per-file record stored in `this.fileMap` by `_addFileInfo`
(lines 306–319).  `statDuration` is a wall-clock measurement in the
source; wall-clock time is not modelled, so it is fixed to `0`. -/
structure FileRecord where
  path : String
  size : Nat
  createTime : Nat
  modifyTime : Nat
  accessTime : Nat
  statDuration : Nat
deriving DecidableEq

/-- The hashing method recorded by `_calculateFileHash`: the strings
`'full'` and `'sampled'` in the source. -/
inductive HashMethod where
  | full : HashMethod
  | sampled : HashMethod
deriving DecidableEq

/-- The per-file record stored in `this.hashMap` by `_calculateFileHash`
(lines 196–200): the digest string and the method.  The source also stores
`hashTime`, a wall-clock measurement, which is not modelled. -/
structure HashRecord where
  hash : String
  method : HashMethod
deriving DecidableEq

/-- A `console.warn` line emitted for a recovered error, with its kind and
the path it mentions: `无法读取目录 <currentPath>` (line 136),
`无法获取文件信息 <relativePath>` (line 171), and
`计算文件哈希失败 <relativePath>` (line 208). -/
inductive Warning where
  | dirRead : String → Warning
  | fileStat : String → Warning
  | hashCompute : String → Warning
deriving DecidableEq

/-- The scanner's session-local mutable state: the instance fields set in
the constructor and `_resetStats` (lines 17–37 and 419–438), plus the
ordered list of `console.warn` lines (`log`), which the source emits as a
side channel.  The wall-clock counters (`scanStartTime`, `statTime`,
`sortTime`, `hashTime`) and the scheduler counters (`concurrentOperations`,
`maxConcurrent`) are not part of this sequential model; the scheduler
counters are modelled by the `Pool` transition system below. -/
structure ScanState where
  fileMap : List FileRecord
  filesByCreateTime : List FileRecord
  hashMap : List (String × HashRecord)
  duplicateFiles : List (String × List String)
  totalFiles : Nat
  totalSize : Nat
  directoriesScanned : Nat
  filesScanned : Nat
  filesWithHash : Nat
  duplicateCount : Nat
  hashErrors : Nat
  log : List Warning
deriving DecidableEq

/-- The state after the constructor / `_resetStats`: empty maps and zero
counters. -/
def initialState : ScanState := ⟨[], [], [], [], 0, 0, 0, 0, 0, 0, 0, []⟩

/-- Model of `path.join(relativePath, item.name)` for the relative paths built by
`_processDirectory`: joining from the empty root-relative path yields the
bare name. -/
def joinPath (r n : String) : String := if r = "" then n else r ++ "/" ++ n

/-- The md5 input bytes of `_calculateFullHash` (lines 216–231): the
file's entire contents, streamed into the digest in order. -/
def fullHashInput (content : Nat → Nat) (fileSize : Nat) : List Nat :=
  FastHash.readWindow content 0 fileSize

/-- The `positions` array of `_calculateSampledHash` (lines 242–252):
head `(0, min(sampleSize, fileSize))`, mid
`(floor(fileSize/2) - floor(sampleSize/2), sampleSize)`, tail
`(max(0, fileSize - sampleSize), min(sampleSize, fileSize))`.  `Nat`
subtraction coincides with the source's `Math.max(0, ...)` clamp for the
tail; the mid start is nonnegative whenever `sampleSize ≤ fileSize`, which
holds on the sampled path under the default configuration. -/
def samplePositions (sampleSize fileSize : Nat) : List (Nat × Nat) :=
  [(0, min sampleSize fileSize),
   (fileSize / 2 - sampleSize / 2, sampleSize),
   (fileSize - sampleSize, min sampleSize fileSize)]

/-- The md5 input bytes of `_calculateSampledHash` (lines 236–284): every
position whose start is beyond end-of-file is skipped
(`pos.start >= fileSize`), and each remaining position contributes the
stream `createReadStream(start, start + length - 1)`, which ends early at
end-of-file, hence `min length (fileSize - start)` bytes.  The source
opens the three streams concurrently and feeds chunks to one md5 object as
they arrive; this model fixes the head-mid-tail completion order. -/
def sampledHashInput (sampleSize : Nat) (content : Nat → Nat) (fileSize : Nat) : List Nat :=
  ((samplePositions sampleSize fileSize).filter (fun p => decide (p.1 < fileSize))).foldr
    (fun p acc => FastHash.readWindow content p.1 (min p.2 (fileSize - p.1)) ++ acc) []

/-- Method `_addFileInfo` (lines 306–319): append the file record to the file map
(JS `Map.set` appends a new key in insertion order; each relative path is
visited at most once per scan) and bump `totalFiles` / `totalSize`. -/
def addFileInfo (rel : String) (n : FileNode) (st : ScanState) : ScanState :=
  { st with
    fileMap := st.fileMap ++ [⟨rel, n.size, n.createTime, n.modifyTime, n.accessTime, 0⟩],
    totalFiles := st.totalFiles + 1,
    totalSize := st.totalSize + n.size }

/-- The `duplicateFiles` update of `_checkDuplicateFiles` (lines 290–295):
ensure a group for the digest exists (a new digest is appended at the end,
matching JS `Map` insertion order) and push the path onto it. -/
def pushToGroup : List (String × List String) → String → String → List (String × List String)
  | [], h, p => [(h, [p])]
  | g :: rest, h, p =>
      if g.1 = h then (g.1, g.2 ++ [p]) :: rest else g :: pushToGroup rest h p

/-- Lookup `this.duplicateFiles.get(hash)` with JS `undefined` read as the empty
list: the path list of the first group keyed by the digest. -/
def groupFor (groups : List (String × List String)) (h : String) : List String :=
  match groups.find? (fun g => g.1 == h) with
  | some g => g.2
  | none => []

/-- Method `_checkDuplicateFiles` (lines 289–304): push the path onto the
digest's group, then bump `stats.duplicateCount` by 2 when the group just
reached length 2 and by 1 when it grew beyond 2. -/
def checkDuplicateFiles (p h : String) (st : ScanState) : ScanState :=
  let groups := pushToGroup st.duplicateFiles h p
  let n := (groupFor groups h).length
  { st with
    duplicateFiles := groups,
    duplicateCount := st.duplicateCount + (if n = 2 then 2 else if 2 < n then 1 else 0) }

/-- The success path of `_calculateFileHash` (lines 196–205): store the
hash record (JS `Map.set`, appended in insertion order), bump
`stats.filesWithHash`, and run the duplicate check. -/
def recordHash (rel digest : String) (m : HashMethod) (st : ScanState) : ScanState :=
  checkDuplicateFiles rel digest
    { st with
      hashMap := st.hashMap ++ [(rel, ⟨digest, m⟩)],
      filesWithHash := st.filesWithHash + 1 }

/-- Method `_calculateFileHash` (lines 178–211): when the byte reads succeed,
hash the whole file if `fileSize <= hashThreshold`, else hash the three
sampled windows, and record the matching method (`'full'` / `'sampled'`,
line 199); a read error is caught, warned, and counted in
`stats.hashErrors`.  The digest primitive `crypto.createHash('md5')` is an
external library call, abstracted as the parameter `md5` from the byte
stream it is fed to the produced hex string. -/
def calculateFileHash (cfg : ScanOptions) (md5 : List Nat → String) (rel : String)
    (n : FileNode) (st : ScanState) : ScanState :=
  if n.readOk then
    recordHash rel
      (if n.size ≤ cfg.hashThreshold then md5 (fullHashInput n.content n.size)
       else md5 (sampledHashInput cfg.hashSampleSize n.content n.size))
      (if n.size ≤ cfg.hashThreshold then HashMethod.full else HashMethod.sampled) st
  else
    { st with log := st.log ++ [Warning.hashCompute rel], hashErrors := st.hashErrors + 1 }

/-- One pending file from a directory listing: the full path, the relative
path, and the file itself. -/
structure FileTask where
  full : String
  rel : String
  node : FileNode

/-- Method `_getFileStat` (lines 154–173): on a successful `stat`, record the
file info, bump `stats.filesScanned`, and hash when enabled; a `stat`
failure is caught and warned, excluding the file from the session. -/
def getFileStat (cfg : ScanOptions) (md5 : List Nat → String) (t : FileTask)
    (st : ScanState) : ScanState :=
  if t.node.statOk then
    let st1 := addFileInfo t.rel t.node st
    let st2 := { st1 with filesScanned := st1.filesScanned + 1 }
    if cfg.enableHash then calculateFileHash cfg md5 t.rel t.node st2 else st2
  else
    { st with log := st.log ++ [Warning.fileStat t.rel] }

/-- Method `_processFilesInBatches` (lines 143–152): the batch slicing only caps
the per-batch fan-out (`Promise.all` over `batchSize` files at a time);
the per-file results are those of running `_getFileStat` over the files in
listing order, which is what this sequential model does. -/
def processFilesInBatches (cfg : ScanOptions) (md5 : List Nat → String)
    (files : List FileTask) (st : ScanState) : ScanState :=
  files.foldl (fun s t => getFileStat cfg md5 t s) st

/-- One queued directory-read task of `_scanWithConcurrencyQueue`: the
full path (used by `readdir` and the warning), the relative path, and the
outcome the filesystem will give its `readdir` call. -/
structure DirTask where
  full : String
  rel : String
  listing : Option (List FSEntry)

/-- The item loop of `_processDirectory` (lines 118–128): in listing
order, each subdirectory becomes a queued task and each file a pending
stat, with paths extended by `path.join`. -/
def collectItems (full rel : String) : List FSEntry → List DirTask × List FileTask
  | [] => ([], [])
  | FSEntry.dir name listing :: rest =>
      (⟨joinPath full name, joinPath rel name, listing⟩ :: (collectItems full rel rest).1,
        (collectItems full rel rest).2)
  | FSEntry.file n :: rest =>
      ((collectItems full rel rest).1,
        ⟨joinPath full n.name, joinPath rel n.name, n⟩ :: (collectItems full rel rest).2)

mutual

/-- Size of a filesystem entry, for termination of the queue runner. -/
def entrySize : FSEntry → Nat
  | FSEntry.file _ => 1
  | FSEntry.dir _ none => 1
  | FSEntry.dir _ (some l) => 1 + entryListSize l

/-- Total size of a listing, for termination of the queue runner. -/
def entryListSize : List FSEntry → Nat
  | [] => 0
  | e :: es => entrySize e + entryListSize es

end

/-- Weight of a queued task: one plus the size of the listing its
`readdir` will return. -/
def taskWeight (t : DirTask) : Nat :=
  match t.listing with
  | none => 1
  | some l => 1 + entryListSize l

/-- Total weight of the task queue. -/
def queueWeight : List DirTask → Nat
  | [] => 0
  | t :: ts => taskWeight t + queueWeight ts

lemma taskWeight_pos (t : DirTask) : 1 ≤ taskWeight t := by
  cases t with
  | mk f r l => cases l <;> simp [taskWeight]

lemma queueWeight_append (a b : List DirTask) :
    queueWeight (a ++ b) = queueWeight a + queueWeight b := by
  induction a with
  | nil => simp [queueWeight]
  | cons t ts ih => simp [queueWeight, ih]; omega

lemma collectItems_weight (full rel : String) :
    ∀ items : List FSEntry, queueWeight (collectItems full rel items).1 ≤ entryListSize items := by
  intro items
  induction items with
  | nil => simp [collectItems, queueWeight, entryListSize]
  | cons e rest ih =>
    cases e with
    | file n =>
      have h1 : entrySize (FSEntry.file n) = 1 := rfl
      simp only [collectItems, entryListSize]
      omega
    | dir name listing =>
      cases listing with
      | none =>
        have h1 : entrySize (FSEntry.dir name none) = 1 := rfl
        have h2 : taskWeight ⟨joinPath full name, joinPath rel name, none⟩ = 1 := rfl
        simp only [collectItems, entryListSize, queueWeight]
        omega
      | some l =>
        have h1 : entrySize (FSEntry.dir name (some l)) = 1 + entryListSize l := rfl
        have h2 : taskWeight ⟨joinPath full name, joinPath rel name, some l⟩ =
            1 + entryListSize l := rfl
        simp only [collectItems, entryListSize, queueWeight]
        omega

/-- The queue discipline of `_scanWithConcurrencyQueue` / `processQueue` /
`_processDirectory` (lines 73–138), run sequentially: tasks are taken from
the front of the FIFO queue (`queue.shift()`), a task whose `readdir`
fails only logs the directory warning and abandons the subtree (the
`catch` at lines 135–137), and a successful task counts the directory,
appends a task per subdirectory to the back of the queue (`queue.push`),
and stats its files.  The functional state reached at quiescence does not
depend on how many tasks run concurrently, so the sequential order stands
in for every admissible schedule. -/
def runQueue (cfg : ScanOptions) (md5 : List Nat → String) :
    List DirTask → ScanState → ScanState
  | [], st => st
  | ⟨full, _, none⟩ :: rest, st =>
      runQueue cfg md5 rest { st with log := st.log ++ [Warning.dirRead full] }
  | ⟨full, rel, some items⟩ :: rest, st =>
      let parts := collectItems full rel items
      runQueue cfg md5 (rest ++ parts.1)
        (processFilesInBatches cfg md5 parts.2
          { st with directoriesScanned := st.directoriesScanned + 1 })
termination_by ts _ => queueWeight ts
decreasing_by
  · simp only [queueWeight, taskWeight]
    omega
  · simp only [queueWeight, taskWeight, queueWeight_append]
    have := collectItems_weight full rel items
    omega

/-- The comparator of `_sortFilesByCreateTime` (lines 330–332), as the
ordering relation it sorts by: `a.createTime.getTime() -
b.createTime.getTime()` is nonpositive exactly when `createTime a ≤
createTime b`. -/
def createLE (a b : FileRecord) : Prop := a.createTime ≤ b.createTime

instance : DecidableRel createLE := fun a b => Nat.decLe a.createTime b.createTime

instance : IsTotal FileRecord createLE := ⟨fun a b => Nat.le_total a.createTime b.createTime⟩

instance : IsTrans FileRecord createLE := ⟨fun _ _ _ hab hbc => Nat.le_trans hab hbc⟩

lemma length_filter_lt_of_mem {α : Type} (p : α → Bool) {l : List α} {x : α}
    (hx : x ∈ l) (hpx : p x = false) : (l.filter p).length < l.length := by
  induction l with
  | nil => cases hx
  | cons a t ih =>
    rcases List.mem_cons.mp hx with rfl | hxt
    · have := List.length_filter_le p t
      simp only [List.filter_cons, hpx, Bool.false_eq_true, if_false, List.length_cons]
      omega
    · have := ih hxt
      by_cases hpa : p a = true <;>
        simp only [List.filter_cons, hpa, if_true, if_false, List.length_cons,
          Bool.false_eq_true] <;> omega

/-- Method `_quickSortByTime` (lines 341–357): below two elements return the
array; otherwise partition around the middle element by the sign of the
comparator difference and recurse.  (Pure: the source builds and returns
new arrays.) -/
def quickSortByTime (arr : List FileRecord) : List FileRecord :=
  if h : arr.length ≤ 1 then arr
  else
    have hlt : arr.length / 2 < arr.length := by omega
    let pivot := arr.get ⟨arr.length / 2, hlt⟩
    quickSortByTime (arr.filter (fun f => decide (f.createTime < pivot.createTime))) ++
      arr.filter (fun f => decide (f.createTime = pivot.createTime)) ++
      quickSortByTime (arr.filter (fun f => decide (pivot.createTime < f.createTime)))
termination_by arr.length
decreasing_by
  · exact length_filter_lt_of_mem _ (List.get_mem arr (arr.length / 2) hlt)
      (by simp [Nat.lt_irrefl])
  · exact length_filter_lt_of_mem _ (List.get_mem arr (arr.length / 2) hlt)
      (by simp [Nat.lt_irrefl])

/-- Method `_sortFilesByCreateTime` (lines 324–336): with `sortAlgorithm ===
'quick'` the source calls `_quickSortByTime(filesArray)` but DISCARDS its
return value and stores the unchanged `filesArray`; otherwise it applies
the built-in `Array.prototype.sort` with the `createTime` comparator —
a stable sort (mandated by the ECMAScript specification), modelled by the
equal-result stable `List.insertionSort`. -/
def sortFilesByCreateTime (cfg : ScanOptions) (files : List FileRecord) : List FileRecord :=
  if cfg.sortAlgorithm = some ("quick") then
    let _sorted := quickSortByTime files
    files
  else
    List.insertionSort createLE files

/-- Method `scanDirectory` (lines 43–68): seed the queue with the root task
(line 104), run to quiescence, then sort the file map's values into
`filesByCreateTime`.  `rootListing` is what `readdir(rootDir)` returns:
`none` models a missing or unreadable root.  Every error a task meets is
caught inside `_processDirectory` / `_getFileStat` /
`_calculateFileHash`, so the promise chain never rejects and the `catch`
with `throw error` at lines 64–67 is unreachable: the function always
returns a state from which `_getScanResults` builds a result. -/
def scanDirectory (cfg : ScanOptions) (md5 : List Nat → String) (rootDir : String)
    (rootListing : Option (List FSEntry)) : ScanState :=
  let st := runQueue cfg md5 [⟨rootDir, "", rootListing⟩] initialState
  { st with filesByCreateTime := sortFilesByCreateTime cfg st.fileMap }

/-- The numeric statistics block of the result object. -/
structure ScanStats where
  directoriesScanned : Nat
  filesScanned : Nat
  filesWithHash : Nat
  duplicateCount : Nat
  hashErrors : Nat
deriving DecidableEq

/-- The object returned by `_getScanResults` (lines 362–385), restricted
to its non-temporal fields.  The source's full field list is: `totalFiles`,
`totalSize`, `formattedTotalSize`, `scanDuration`/`scanDurationMs`,
`pureScanTime`/`pureScanTimeMs`, `statTotalTime`/`statTotalTimeMs`,
`sortTime`/`sortTimeMs`, `hashTime`/`hashTimeMs`, `averageStatTime`,
`averageSortTimePerFile`, `averageHashTime`, and `stats` (spread of
`this.stats`).  Every omitted field is a wall-clock duration, a formatted
rendering of one, or `formattedTotalSize` (a rendering of `totalSize`);
the omitted `stats` entries (`concurrentOperations`, `maxConcurrent`)
belong to the scheduler, modelled by `Pool` below.  No field of the
source object is a list of warnings or mentions any failed path. -/
structure ScanResult where
  totalFiles : Nat
  totalSize : Nat
  stats : ScanStats
deriving DecidableEq

/-- Projection of `_getScanResults` onto the modelled fields. -/
def getScanResults (st : ScanState) : ScanResult :=
  ⟨st.totalFiles, st.totalSize,
    ⟨st.directoriesScanned, st.filesScanned, st.filesWithHash, st.duplicateCount, st.hashErrors⟩⟩

/-- Query `getFilesByTimeRange` (lines 624–632): filter `filesByCreateTime` by
`fileTime >= start && fileTime <= end` — both bounds inclusive. -/
def getFilesByTimeRange (st : ScanState) (startTime endTime : Nat) : List FileRecord :=
  st.filesByCreateTime.filter
    (fun f => decide (startTime ≤ f.createTime) && decide (f.createTime ≤ endTime))

/-- Query `getFileHash` (lines 650–652): `this.hashMap.get(filePath)`, which is
`undefined` (`none`) when the path was never hashed. -/
def getFileHash (st : ScanState) (p : String) : Option HashRecord :=
  (st.hashMap.find? (fun e => e.1 == p)).map (fun e => e.2)

/-- Query `getFilesByHash` (lines 679–681): `this.duplicateFiles.get(hash) ||
[]` — the digest's path group, or the empty list when the digest is
unknown. -/
def getFilesByHash (st : ScanState) (h : String) : List String :=
  groupFor st.duplicateFiles h

/-- One successful hash-record insertion, as performed by the success path
of `_calculateFileHash`. -/
structure HashInsertion where
  path : String
  digest : String
  method : HashMethod

/-- A session's sequence of successful hash-record insertions, applied in
order.  `recordHash` is the only code that writes `hashMap`,
`duplicateFiles`, `filesWithHash` or `duplicateCount`, so every state a
scan reaches carries the maps produced by some such sequence. -/
def applyHashRecords (recs : List HashInsertion) (st : ScanState) : ScanState :=
  recs.foldl (fun s r => recordHash r.path r.digest r.method s) st

/-- The number of paths that belong to some digest group with at least two
members (paths are pairwise distinct within a session, one per hashed
file). -/
def dupPathCount (groups : List (String × List String)) : Nat :=
  (groups.map (fun g => if 2 ≤ g.2.length then g.2.length else 0)).sum

end Scanner

namespace Pool

/-- The observable state of the promise pool of
`_scanWithConcurrencyQueue` (lines 73–109): the queue length, the
`activePromises` counter, and the two scheduler statistics
(`stats.concurrentOperations`, `stats.maxConcurrent`). -/
structure PoolState where
  queued : Nat
  active : Nat
  concurrentOperations : Nat
  maxConcurrent : Nat
deriving DecidableEq

/-- One atomic transition of the pool, from `processQueue` (lines 84–101)
and the task bodies: `acquire` models one iteration of the admission loop
(guarded by a nonempty queue and `activePromises < maxConcurrency`;
it increments `activePromises`, records it in `concurrentOperations` and
folds it into `maxConcurrent`, and shifts a task off the queue);
`enqueue` is a running task pushing a discovered subdirectory
(`queue.push`, line 124); `complete` is a task's `finally` decrementing
`activePromises` (line 92). -/
inductive PoolStep (cap : Nat) : PoolState → PoolState → Prop where
  | acquire (s : PoolState) (hq : 0 < s.queued) (hc : s.active < cap) :
      PoolStep cap s ⟨s.queued - 1, s.active + 1, s.active + 1, Nat.max s.maxConcurrent (s.active + 1)⟩
  | enqueue (s : PoolState) (ha : 0 < s.active) :
      PoolStep cap s ⟨s.queued + 1, s.active, s.concurrentOperations, s.maxConcurrent⟩
  | complete (s : PoolState) (ha : 0 < s.active) :
      PoolStep cap s ⟨s.queued, s.active - 1, s.concurrentOperations, s.maxConcurrent⟩

/-- The pool state at scan start: the root task queued, nothing active,
both statistics zero (`_resetStats`). -/
def startState (q0 : Nat) : PoolState := ⟨q0, 0, 0, 0⟩

end Pool

/-!
Scenario fixtures:

Concrete inputs used by the scenario theorems below.
-/

namespace Scanner

/-- The default options with hashing enabled, as in the spec's four-file
scenario («hashing enabled with defaults»). -/
def hashOptions : ScanOptions := ⟨200, 50, 10 * 1024, 2 * 1024, true, none⟩

/-- The default options with the optional quick-sort algorithm selected
(`sortAlgorithm: 'quick'`). -/
def quickOptions : ScanOptions := ⟨200, 50, 10 * 1024, 2 * 1024, false, some ("quick")⟩

/-- The spec's four-file scenario: a root with files of 1 KiB, 5 KiB and
50 KiB, plus an exact byte-copy of the 1 KiB file in a subdirectory. -/
def scenarioItems : List FSEntry :=
  [FSEntry.file ⟨"a.bin", 1024, 10, 0, 0, fun _ => 0, true, true⟩,
   FSEntry.file ⟨"b.bin", 5120, 20, 0, 0, fun _ => 1, true, true⟩,
   FSEntry.file ⟨"big.bin", 51200, 30, 0, 0, fun _ => 2, true, true⟩,
   FSEntry.dir ("sub") (some [FSEntry.file ⟨"a2.bin", 1024, 40, 0, 0, fun _ => 0, true, true⟩])]

end Scanner

/-!
Theorems for the claims.
-/

namespace FastHash

lemma hexDigit_mem_hexChars : ∀ n, n < 16 → hexDigit n ∈ hexChars := by decide

lemma fnv1a64_replicate_zero (n : Nat) (seed : Nat) (hs : seed < 2 ^ 64) :
    fnv1a64 (List.replicate n 0) seed = seed * FNV_PRIME ^ n % 2 ^ 64 := by
  induction n generalizing seed with
  | zero => simpa using (Nat.mod_eq_of_lt hs).symm
  | succ m ih =>
    have step : fnv1a64 (List.replicate (m + 1) 0) seed =
        fnv1a64 (List.replicate m 0) (fnvStep seed 0) := rfl
    rw [step, ih (fnvStep seed 0) (Nat.mod_lt _ (by norm_num)), fnvStep, Nat.xor_zero,
      Nat.mod_mul_mod, Nat.mul_assoc, ← Nat.pow_succ']

lemma readWindow_zero (off len : Nat) :
    readWindow (fun _ => 0) off len = List.replicate len 0 := by
  simp [readWindow, List.map_const]

lemma fastHashBytes_zero (s : Nat) (hs : THRESHOLD ≤ s) :
    fastHashBytes (fun _ => 0) s = List.replicate (3 * BLOCK_SIZE) 0 := by
  rw [fastHashBytes, if_neg (by omega), readWindow_zero, readWindow_zero, readWindow_zero,
    show 3 * BLOCK_SIZE = BLOCK_SIZE + (BLOCK_SIZE + BLOCK_SIZE) by rfl,
    List.replicate_add, List.replicate_add, List.append_assoc]

lemma zero_windows_seed_value :
    FNV_OFFSET * FNV_PRIME ^ (3 * BLOCK_SIZE) % 2 ^ 64 = 0x6df0de0551480325 := by
  norm_num [FNV_OFFSET, FNV_PRIME, BLOCK_SIZE]

end FastHash

/-- C1: the scanner's sampled-hash operation violates the size-mixing
contract.  The two all-zero files of sizes 20480 and 20481 bytes (both
above the 10 KiB threshold) have byte-identical head/mid/tail windows, so
`_calculateSampledHash` (lines 236–284) feeds the identical byte stream to
its md5 object for both files — the file size never enters the digest,
hence both files receive the same digest, and the claim fails on the
scanner.  The claim is right about the repository's documented algorithm:
`calculateFastHash` of `hash算法.md` feeds the 8-byte little-endian size
through `fnv1a64` seeded with the content hash and separates the same
pair of files. -/
theorem C1_scanner_sampledHash_ignores_size :
    Scanner.sampledHashInput 2048 (fun _ => 0) 20480 =
      Scanner.sampledHashInput 2048 (fun _ => 0) 20481 ∧
    FastHash.calculateFastHash (fun _ => 0) 20480 ≠
      FastHash.calculateFastHash (fun _ => 0) 20481 := by
  constructor
  · rfl
  · rw [FastHash.calculateFastHash, FastHash.calculateFastHash,
      FastHash.fastHashBytes_zero 20480 (by norm_num [FastHash.THRESHOLD]),
      FastHash.fastHashBytes_zero 20481 (by norm_num [FastHash.THRESHOLD]),
      FastHash.fnv1a64_replicate_zero _ _ (by norm_num [FastHash.FNV_OFFSET]),
      FastHash.zero_windows_seed_value]
    decide

/-- C6: every digest produced by the documented Hash Engine
(`calculateFastHash` of `hash算法.md`) is a 16-character string all of
whose characters are lowercase hexadecimal digits — fixed width, zero
padded.  (The shipping scanner instead renders 32-character md5 hex
digests, inherited from the external crypto primitive.) -/
theorem C6_fastHash_digest_hex16 (content : Nat → Nat) (fileSize : Nat) :
    (FastHash.calculateFastHash content fileSize).length = 16 ∧
    (FastHash.calculateFastHash content fileSize).data.all
      (fun c => decide (c ∈ FastHash.hexChars)) = true := by
  constructor
  · simp [FastHash.calculateFastHash, FastHash.toHexPad16, String.length]
  · rw [List.all_eq_true]
    intro c hc
    simp only [FastHash.calculateFastHash, FastHash.toHexPad16, List.mem_map,
      List.mem_range] at hc
    obtain ⟨i, _, rfl⟩ := hc
    simpa using FastHash.hexDigit_mem_hexChars _ (Nat.mod_lt _ (by norm_num))

/-- C2, counterexample: scanning a missing or unreadable root is NOT
fatal.  `_processDirectory` catches the root's `readdir` failure like any
other (lines 135–137), so the scan runs to completion and `scanDirectory`
returns a normal `ScanResult` (zero files, zero directories) — the only
trace of the failure is a console warning line. -/
theorem C2_root_failure_still_returns_result :
    Scanner.getScanResults (Scanner.scanDirectory Scanner.defaultOptions (fun _ => "") "root" none) =
      ⟨0, 0, ⟨0, 0, 0, 0, 0⟩⟩ ∧
    (Scanner.scanDirectory Scanner.defaultOptions (fun _ => "") "root" none).log =
      [Scanner.Warning.dirRead ("root")] := by
  constructor <;>
    simp [Scanner.scanDirectory, Scanner.runQueue, Scanner.initialState,
      Scanner.getScanResults]

/-- C2, amended: a root-path failure is recovered exactly like any other
unreadable directory — a `dirRead` warning is logged for the root and a
`ScanResult` with zero files, zero size and zero counters is still
returned, for every configuration and hash function; item failures
likewise never prevent a result (the scan model is total). -/
theorem C2_amended_root_failure_recovered (cfg : Scanner.ScanOptions)
    (md5 : List Nat → String) (rootDir : String) :
    Scanner.getScanResults (Scanner.scanDirectory cfg md5 rootDir none) =
      ⟨0, 0, ⟨0, 0, 0, 0, 0⟩⟩ ∧
    (Scanner.scanDirectory cfg md5 rootDir none).log =
      [Scanner.Warning.dirRead rootDir] := by
  constructor <;>
    simp [Scanner.scanDirectory, Scanner.runQueue, Scanner.initialState,
      Scanner.getScanResults]

/-- C3, counterexample: a recovered error leaves no trace in the returned
`ScanResult`.  Scanning a root that contains one file plus an unreadable
subdirectory produces exactly the same `ScanResult` as scanning a root
without that subdirectory at all — the two runs differ only in the console
log, which carries the warning with its kind and path.  So the warning is
only a side-channel log line, not an entry of the result. -/
theorem C3_result_carries_no_warning :
    Scanner.getScanResults (Scanner.scanDirectory Scanner.defaultOptions (fun _ => "") "root"
        (some [Scanner.FSEntry.file ⟨"f1", 10, 5, 0, 0, fun _ => 0, true, true⟩,
               Scanner.FSEntry.dir ("bad") none])) =
      Scanner.getScanResults (Scanner.scanDirectory Scanner.defaultOptions (fun _ => "") "root"
        (some [Scanner.FSEntry.file ⟨"f1", 10, 5, 0, 0, fun _ => 0, true, true⟩])) ∧
    (Scanner.scanDirectory Scanner.defaultOptions (fun _ => "") "root"
        (some [Scanner.FSEntry.file ⟨"f1", 10, 5, 0, 0, fun _ => 0, true, true⟩,
               Scanner.FSEntry.dir ("bad") none])).log =
      [Scanner.Warning.dirRead ("root/bad")] ∧
    (Scanner.scanDirectory Scanner.defaultOptions (fun _ => "") "root"
        (some [Scanner.FSEntry.file ⟨"f1", 10, 5, 0, 0, fun _ => 0, true, true⟩])).log =
      ([] : List Scanner.Warning) := by
  refine ⟨?_, ?_, ?_⟩ <;>
    simp +decide [Scanner.scanDirectory, Scanner.runQueue, Scanner.collectItems,
      Scanner.processFilesInBatches, Scanner.getFileStat, Scanner.addFileInfo,
      Scanner.initialState, Scanner.getScanResults, Scanner.joinPath, Scanner.defaultOptions]

/-- C3, amended: every recovered error is reported only as a console
warning (the modelled `log`), which does carry its kind and path: an
unreadable directory appends exactly one `dirRead` warning with the
directory's full path and changes nothing else; a failed `stat` appends
exactly one `fileStat` warning with the file's relative path; a failed
hash read appends exactly one `hashCompute` warning with the relative
path and additionally bumps the numeric `hashErrors` counter — which is
the only reflection of any recovered error inside the returned
`ScanResult`. -/
theorem C3_amended_warnings_only_logged :
    (∀ (cfg : Scanner.ScanOptions) (md5 : List Nat → String) (full rel : String)
        (rest : List Scanner.DirTask) (st : Scanner.ScanState),
      Scanner.runQueue cfg md5 (⟨full, rel, none⟩ :: rest) st =
        Scanner.runQueue cfg md5 rest
          { st with log := st.log ++ [Scanner.Warning.dirRead full] }) ∧
    (∀ (cfg : Scanner.ScanOptions) (md5 : List Nat → String) (full rel nm : String)
        (sz ct mt at2 : Nat) (c : Nat → Nat) (ro : Bool) (st : Scanner.ScanState),
      Scanner.getFileStat cfg md5 ⟨full, rel, ⟨nm, sz, ct, mt, at2, c, false, ro⟩⟩ st =
        { st with log := st.log ++ [Scanner.Warning.fileStat rel] }) ∧
    (∀ (cfg : Scanner.ScanOptions) (md5 : List Nat → String) (rel nm : String)
        (sz ct mt at2 : Nat) (c : Nat → Nat) (so : Bool) (st : Scanner.ScanState),
      Scanner.calculateFileHash cfg md5 rel ⟨nm, sz, ct, mt, at2, c, so, false⟩ st =
        { st with log := st.log ++ [Scanner.Warning.hashCompute rel],
                  hashErrors := st.hashErrors + 1 }) := by
  refine ⟨fun cfg md5 full rel rest st => ?_, fun cfg md5 full rel nm sz ct mt at2 c ro st => ?_,
    fun cfg md5 rel nm sz ct mt at2 c so st => ?_⟩
  · simp [Scanner.runQueue]
  · simp [Scanner.getFileStat]
  · simp [Scanner.calculateFileHash]

/-- C4, counterexample: with the optional quick-sort algorithm selected,
the supposedly sorted file list is not sorted.  `_sortFilesByCreateTime`
(lines 327–335) calls `_quickSortByTime(filesArray)` but ignores its
return value and stores the unchanged `filesArray`, so a file list given
in decreasing creation-time order comes back unchanged and out of order. -/
theorem C4_quickSort_output_unsorted :
    Scanner.sortFilesByCreateTime Scanner.quickOptions
        [⟨"b", 0, 5, 0, 0, 0⟩, ⟨"a", 0, 3, 0, 0, 0⟩] =
      [⟨"b", 0, 5, 0, 0, 0⟩, ⟨"a", 0, 3, 0, 0, 0⟩] ∧
    ¬ List.Sorted Scanner.createLE
        [(⟨"b", 0, 5, 0, 0, 0⟩ : Scanner.FileRecord), ⟨"a", 0, 3, 0, 0, 0⟩] := by
  constructor
  · rfl
  · intro hs
    have h1 := (List.sorted_cons.mp hs).1 ⟨"a", 0, 3, 0, 0, 0⟩ (by simp)
    simp [Scanner.createLE] at h1

/-- C4, amended: with the default algorithm the returned list is sorted by
non-decreasing creation time (ties keep the file map's insertion order —
the ECMAScript sort is stable — not path order, which the code never
compares), and re-running the sort on the result leaves it unchanged;
with the optional quick-sort algorithm the list is returned exactly as it
was, because the quicksort's result is discarded. -/
theorem C4_amended_sort_behaviour (files : List Scanner.FileRecord) :
    List.Sorted Scanner.createLE (Scanner.sortFilesByCreateTime Scanner.defaultOptions files) ∧
    Scanner.sortFilesByCreateTime Scanner.defaultOptions
        (Scanner.sortFilesByCreateTime Scanner.defaultOptions files) =
      Scanner.sortFilesByCreateTime Scanner.defaultOptions files ∧
    Scanner.sortFilesByCreateTime Scanner.quickOptions files = files := by
  have hdef : ∀ l : List Scanner.FileRecord,
      Scanner.sortFilesByCreateTime Scanner.defaultOptions l =
        List.insertionSort Scanner.createLE l := by
    intro l
    simp [Scanner.sortFilesByCreateTime, Scanner.defaultOptions]
  refine ⟨?_, ?_, rfl⟩
  · rw [hdef]
    exact List.sorted_insertionSort Scanner.createLE files
  · rw [hdef, hdef]
    exact (List.sorted_insertionSort Scanner.createLE files).insertionSort_eq

/-- C7, counterexample: the time-range query includes files whose creation
time equals the upper bound.  A scan of a single file created at time 5,
queried with the range `(0, 5)`, returns that file — the filter at
lines 628–631 tests `fileTime <= end`, not `fileTime < end` as the
half-open contract `[start, end)` would require. -/
theorem C7_endpoint_included :
    Scanner.getFilesByTimeRange
        (Scanner.scanDirectory Scanner.defaultOptions (fun _ => "") "root"
          (some [Scanner.FSEntry.file ⟨"x", 10, 5, 0, 0, fun _ => 0, true, true⟩])) 0 5 =
      [⟨"x", 10, 5, 0, 0, 0⟩] ∧
    (⟨"x", 10, 5, 0, 0, 0⟩ : Scanner.FileRecord).createTime = 5 := by
  constructor
  · simp +decide [Scanner.scanDirectory, Scanner.runQueue, Scanner.collectItems,
      Scanner.processFilesInBatches, Scanner.getFileStat, Scanner.addFileInfo,
      Scanner.initialState, Scanner.joinPath, Scanner.defaultOptions,
      Scanner.sortFilesByCreateTime, Scanner.getFilesByTimeRange]
  · rfl

/-- C7, amended: for every session state and bounds `(start, end)`, the
time-range query returns exactly the files of the sorted list whose
creation time lies in the CLOSED interval `[start, end]` — both endpoints
included. -/
theorem C7_amended_closed_interval (st : Scanner.ScanState) (startT endT : Nat)
    (f : Scanner.FileRecord) :
    f ∈ Scanner.getFilesByTimeRange st startT endT ↔
      f ∈ st.filesByCreateTime ∧ startT ≤ f.createTime ∧ f.createTime ≤ endT := by
  simp [Scanner.getFilesByTimeRange, List.mem_filter, and_assoc]

namespace Scanner

/-! Projection lemmas for `recordHash`: the success path of
`_calculateFileHash` touches only `hashMap`, `filesWithHash`,
`duplicateFiles` and `duplicateCount`; every other field passes through,
and `hashMap` receives exactly the new entry.  These let concrete scans be
evaluated without materialising the duplicate index, whose group keys are
unevaluated digests of the abstract md5 parameter. -/

lemma recordHash_hashMap (rel d : String) (m : HashMethod) (st : ScanState) :
    (recordHash rel d m st).hashMap = st.hashMap ++ [(rel, ⟨d, m⟩)] := rfl

lemma recordHash_fileMap (rel d : String) (m : HashMethod) (st : ScanState) :
    (recordHash rel d m st).fileMap = st.fileMap := rfl

lemma recordHash_filesByCreateTime (rel d : String) (m : HashMethod) (st : ScanState) :
    (recordHash rel d m st).filesByCreateTime = st.filesByCreateTime := rfl

lemma recordHash_totalFiles (rel d : String) (m : HashMethod) (st : ScanState) :
    (recordHash rel d m st).totalFiles = st.totalFiles := rfl

lemma recordHash_totalSize (rel d : String) (m : HashMethod) (st : ScanState) :
    (recordHash rel d m st).totalSize = st.totalSize := rfl

lemma recordHash_directoriesScanned (rel d : String) (m : HashMethod) (st : ScanState) :
    (recordHash rel d m st).directoriesScanned = st.directoriesScanned := rfl

lemma recordHash_filesScanned (rel d : String) (m : HashMethod) (st : ScanState) :
    (recordHash rel d m st).filesScanned = st.filesScanned := rfl

lemma recordHash_filesWithHash (rel d : String) (m : HashMethod) (st : ScanState) :
    (recordHash rel d m st).filesWithHash = st.filesWithHash + 1 := rfl

lemma recordHash_hashErrors (rel d : String) (m : HashMethod) (st : ScanState) :
    (recordHash rel d m st).hashErrors = st.hashErrors := rfl

lemma recordHash_log (rel d : String) (m : HashMethod) (st : ScanState) :
    (recordHash rel d m st).log = st.log := rfl

end Scanner

/-- C5: strategy and method selection of `_calculateFileHash`
(lines 184–200).  First part, for any configuration and any md5 function:
a successfully hashed file is recorded with the digest of its ENTIRE
contents and method `full` when `size ≤ hashThreshold`, and with the
digest of the three sampled windows and method `sampled` otherwise.
Second part, the spec's four-file scenario under the defaults with hashing
enabled: four files are counted, the two 1 KiB byte-copies and the 5 KiB
file are hashed via method `full`, and the 50 KiB file via method
`sampled` — for every md5 function. -/
theorem C5_method_selection_and_scenario :
    (∀ (cfg : Scanner.ScanOptions) (md5 : List Nat → String) (rel nm : String)
        (sz ct mt at2 : Nat) (c : Nat → Nat) (so : Bool),
      (Scanner.calculateFileHash cfg md5 rel ⟨nm, sz, ct, mt, at2, c, so, true⟩
          Scanner.initialState).hashMap =
        [(rel,
          ⟨(if sz ≤ cfg.hashThreshold then md5 (Scanner.fullHashInput c sz)
            else md5 (Scanner.sampledHashInput cfg.hashSampleSize c sz)),
           (if sz ≤ cfg.hashThreshold then Scanner.HashMethod.full
            else Scanner.HashMethod.sampled)⟩)]) ∧
    (∀ md5 : List Nat → String,
      (Scanner.getScanResults
          (Scanner.scanDirectory Scanner.hashOptions md5 ("root")
            (some Scanner.scenarioItems))).totalFiles = 4 ∧
      (Scanner.getFileHash
          (Scanner.scanDirectory Scanner.hashOptions md5 ("root") (some Scanner.scenarioItems))
          "a.bin").map Scanner.HashRecord.method = some Scanner.HashMethod.full ∧
      (Scanner.getFileHash
          (Scanner.scanDirectory Scanner.hashOptions md5 ("root") (some Scanner.scenarioItems))
          "b.bin").map Scanner.HashRecord.method = some Scanner.HashMethod.full ∧
      (Scanner.getFileHash
          (Scanner.scanDirectory Scanner.hashOptions md5 ("root") (some Scanner.scenarioItems))
          "sub/a2.bin").map Scanner.HashRecord.method = some Scanner.HashMethod.full ∧
      (Scanner.getFileHash
          (Scanner.scanDirectory Scanner.hashOptions md5 ("root") (some Scanner.scenarioItems))
          "big.bin").map Scanner.HashRecord.method = some Scanner.HashMethod.sampled) := by
  constructor
  · intro cfg md5 rel nm sz ct mt at2 c so
    by_cases h : sz ≤ cfg.hashThreshold <;>
      simp [Scanner.calculateFileHash, Scanner.recordHash, Scanner.checkDuplicateFiles,
        Scanner.initialState, h]
  · intro md5
    refine ⟨?_, ?_, ?_, ?_, ?_⟩ <;>
      · simp only [Scanner.scanDirectory, Scanner.scenarioItems, Scanner.runQueue,
          Scanner.collectItems, List.nil_append]
        rfl



/-- C8: along every execution of the promise pool — any interleaving of
task admissions, mid-task enqueues and task completions reachable from the
scan-start state — the number of active tasks never exceeds the configured
`maxConcurrency`, and therefore the recorded `stats.maxConcurrent` peak is
at most `maxConcurrency` as well: the admission loop at line 85 only
admits while `activePromises < this.options.maxConcurrency`. -/
theorem C8_peak_le_maxConcurrency (cap q0 : Nat) (s : Pool.PoolState)
    (h : Relation.ReflTransGen (Pool.PoolStep cap) (Pool.startState q0) s) :
    s.active ≤ cap ∧ s.maxConcurrent ≤ cap := by
  induction h with
  | refl => simp [Pool.startState]
  | tail hsteps hstep ih =>
    cases hstep with
    | acquire hq hc => exact ⟨hc, Nat.max_le.mpr ⟨ih.2, hc⟩⟩
    | enqueue ha => exact ih
    | complete ha => exact ⟨Nat.le_trans (Nat.sub_le _ _) ih.1, ih.2⟩

/-- C8, witness: one admission step with `maxConcurrency = 2` from a
one-task queue reaches the state `⟨0, 1, 1, 1⟩`, whose active count and
peak are within the cap. -/
theorem C8_peak_le_maxConcurrency_witness :
    (Pool.PoolState.mk 0 1 1 1).active ≤ 2 ∧ (Pool.PoolState.mk 0 1 1 1).maxConcurrent ≤ 2 :=
  C8_peak_le_maxConcurrency 2 1 ⟨0, 1, 1, 1⟩
    (Relation.ReflTransGen.single
      (Pool.PoolStep.acquire (Pool.startState 1) (by decide) (by decide)))

namespace Scanner

lemma recordHash_duplicateFiles (rel d : String) (m : HashMethod) (st : ScanState) :
    (recordHash rel d m st).duplicateFiles = pushToGroup st.duplicateFiles d rel := rfl

lemma recordHash_duplicateCount (rel d : String) (m : HashMethod) (st : ScanState) :
    (recordHash rel d m st).duplicateCount =
      st.duplicateCount +
        (if (groupFor (pushToGroup st.duplicateFiles d rel) d).length = 2 then 2
         else if 2 < (groupFor (pushToGroup st.duplicateFiles d rel) d).length then 1
         else 0) := rfl

lemma groupFor_cons_of_eq (g : String × List String) (l : List (String × List String))
    (h : String) (hg : g.1 = h) : groupFor (g :: l) h = g.2 := by
  simp [groupFor, List.find?_cons_of_pos, hg]

lemma groupFor_cons_of_ne (g : String × List String) (l : List (String × List String))
    (h : String) (hg : g.1 ≠ h) : groupFor (g :: l) h = groupFor l h := by
  rw [groupFor, groupFor, List.find?_cons_of_neg]
  simpa using hg

lemma pushToGroup_cons_of_eq (g : String × List String) (rest : List (String × List String))
    (h p : String) (hg : g.1 = h) :
    pushToGroup (g :: rest) h p = (g.1, g.2 ++ [p]) :: rest := by
  simp [pushToGroup, hg]

lemma pushToGroup_cons_of_ne (g : String × List String) (rest : List (String × List String))
    (h p : String) (hg : g.1 ≠ h) :
    pushToGroup (g :: rest) h p = g :: pushToGroup rest h p := by
  simp [pushToGroup, hg]

lemma groupFor_pushToGroup_self (groups : List (String × List String)) (h p : String) :
    groupFor (pushToGroup groups h p) h = groupFor groups h ++ [p] := by
  induction groups with
  | nil => simp [pushToGroup, groupFor]
  | cons g rest ih =>
    by_cases hg : g.1 = h
    · rw [pushToGroup_cons_of_eq g rest h p hg, groupFor_cons_of_eq g rest h hg]
      exact groupFor_cons_of_eq (g.1, g.2 ++ [p]) rest h hg
    · rw [pushToGroup_cons_of_ne g rest h p hg, groupFor_cons_of_ne _ _ _ hg,
        groupFor_cons_of_ne _ _ _ hg, ih]

lemma contrib_succ (n : Nat) :
    (if 2 ≤ n + 1 then n + 1 else 0) =
      (if 2 ≤ n then n else 0) +
        (if n + 1 = 2 then 2 else if 2 < n + 1 then 1 else 0) := by
  split_ifs <;> omega

lemma dupPathCount_pushToGroup (groups : List (String × List String)) (h p : String) :
    dupPathCount (pushToGroup groups h p) =
      dupPathCount groups +
        (if (groupFor (pushToGroup groups h p) h).length = 2 then 2
         else if 2 < (groupFor (pushToGroup groups h p) h).length then 1 else 0) := by
  induction groups with
  | nil => simp [pushToGroup, groupFor, dupPathCount]
  | cons g rest ih =>
    by_cases hg : g.1 = h
    · rw [pushToGroup_cons_of_eq g rest h p hg,
        groupFor_cons_of_eq (g.1, g.2 ++ [p]) rest h hg]
      simp only [dupPathCount, List.map_cons, List.sum_cons, List.length_append,
        List.length_singleton]
      have hcs := contrib_succ g.2.length
      omega
    · rw [pushToGroup_cons_of_ne g rest h p hg,
        groupFor_cons_of_ne g (pushToGroup rest h p) h hg]
      simp only [dupPathCount, List.map_cons, List.sum_cons]
      have hih := ih
      simp only [dupPathCount] at hih
      omega

lemma applyHashRecords_dup_invariant :
    ∀ (recs : List HashInsertion) (st : ScanState),
      st.duplicateCount = dupPathCount st.duplicateFiles →
      (applyHashRecords recs st).duplicateCount =
        dupPathCount (applyHashRecords recs st).duplicateFiles := by
  intro recs
  induction recs with
  | nil => intro st hst; simpa [applyHashRecords] using hst
  | cons r rs ih =>
    intro st hst
    have hstep : (recordHash r.path r.digest r.method st).duplicateCount =
        dupPathCount (recordHash r.path r.digest r.method st).duplicateFiles := by
      rw [recordHash_duplicateCount, recordHash_duplicateFiles, dupPathCount_pushToGroup, hst]
    have hfold : applyHashRecords (r :: rs) st =
        applyHashRecords rs (recordHash r.path r.digest r.method st) := rfl
    rw [hfold]
    exact ih _ hstep

end Scanner

/-- C9: after any sequence of hash-record insertions from any state that
satisfies the bookkeeping invariant (in particular from the reset state,
where both sides are zero), `stats.duplicateCount` equals the total number
of paths lying in digest groups of size at least two; and each single
insertion adds 2 exactly when it brings its group to size 2, and adds 1
when it grows a group beyond size 2 (`_checkDuplicateFiles`,
lines 297–303). -/
theorem C9_duplicateCount_invariant (recs : List Scanner.HashInsertion)
    (st : Scanner.ScanState)
    (hst : st.duplicateCount = Scanner.dupPathCount st.duplicateFiles) :
    ((Scanner.applyHashRecords recs st).duplicateCount =
      Scanner.dupPathCount (Scanner.applyHashRecords recs st).duplicateFiles) ∧
    (∀ (p h : String) (m : Scanner.HashMethod) (st2 : Scanner.ScanState),
      ((Scanner.groupFor (Scanner.pushToGroup st2.duplicateFiles h p) h).length = 2 →
        (Scanner.recordHash p h m st2).duplicateCount = st2.duplicateCount + 2) ∧
      (2 < (Scanner.groupFor (Scanner.pushToGroup st2.duplicateFiles h p) h).length →
        (Scanner.recordHash p h m st2).duplicateCount = st2.duplicateCount + 1)) := by
  constructor
  · exact Scanner.applyHashRecords_dup_invariant recs st hst
  · intro p h m st2
    constructor
    · intro hlen
      rw [Scanner.recordHash_duplicateCount, if_pos hlen]
    · intro hlen
      rw [Scanner.recordHash_duplicateCount, if_neg (by omega), if_pos hlen]

/-- C9, witness: inserting two records with the same digest from the reset
state satisfies the invariant (both sides equal 2). -/
theorem C9_duplicateCount_invariant_witness :
    (Scanner.applyHashRecords
        [⟨"a", "d", Scanner.HashMethod.full⟩, ⟨"b", "d", Scanner.HashMethod.full⟩]
        Scanner.initialState).duplicateCount =
      Scanner.dupPathCount (Scanner.applyHashRecords
        [⟨"a", "d", Scanner.HashMethod.full⟩, ⟨"b", "d", Scanner.HashMethod.full⟩]
        Scanner.initialState).duplicateFiles :=
  (C9_duplicateCount_invariant
    [⟨"a", "d", Scanner.HashMethod.full⟩, ⟨"b", "d", Scanner.HashMethod.full⟩]
    Scanner.initialState rfl).1

namespace Scanner

lemma applyHashRecords_hashMap :
    ∀ (recs : List HashInsertion) (st : ScanState),
      (applyHashRecords recs st).hashMap =
        st.hashMap ++ recs.map (fun r => (r.path, ⟨r.digest, r.method⟩)) := by
  intro recs
  induction recs with
  | nil => intro st; simp [applyHashRecords]
  | cons r rs ih =>
    intro st
    have hfold : applyHashRecords (r :: rs) st =
        applyHashRecords rs (recordHash r.path r.digest r.method st) := rfl
    rw [hfold, ih, recordHash_hashMap]
    simp

lemma pushToGroup_keys (groups : List (String × List String)) (h p k : String)
    (hk : k ∈ (pushToGroup groups h p).map Prod.fst) :
    k ∈ groups.map Prod.fst ∨ k = h := by
  induction groups with
  | nil => simpa [pushToGroup] using hk
  | cons g rest ih =>
    by_cases hg : g.1 = h
    · rw [pushToGroup_cons_of_eq g rest h p hg] at hk
      simp only [List.map_cons, List.mem_cons] at hk
      rcases hk with hk | hk
      · exact Or.inr (hk.trans hg)
      · exact Or.inl (by simp only [List.map_cons, List.mem_cons]; exact Or.inr hk)
    · rw [pushToGroup_cons_of_ne g rest h p hg] at hk
      simp only [List.map_cons, List.mem_cons] at hk
      rcases hk with hk | hk
      · exact Or.inl (by simp only [List.map_cons, List.mem_cons]; exact Or.inl hk)
      · rcases ih hk with h1 | h1
        · exact Or.inl (by simp only [List.map_cons, List.mem_cons]; exact Or.inr h1)
        · exact Or.inr h1

lemma applyHashRecords_dupFiles_keys :
    ∀ (recs : List HashInsertion) (st : ScanState) (k : String),
      k ∈ ((applyHashRecords recs st).duplicateFiles).map Prod.fst →
      k ∈ st.duplicateFiles.map Prod.fst ∨ k ∈ recs.map (fun r => r.digest) := by
  intro recs
  induction recs with
  | nil => intro st k hk; exact Or.inl (by simpa [applyHashRecords] using hk)
  | cons r rs ih =>
    intro st k hk
    have hfold : applyHashRecords (r :: rs) st =
        applyHashRecords rs (recordHash r.path r.digest r.method st) := rfl
    rw [hfold] at hk
    rcases ih _ k hk with h1 | h1
    · rw [recordHash_duplicateFiles] at h1
      rcases pushToGroup_keys st.duplicateFiles r.digest r.path k h1 with h2 | h2
      · exact Or.inl h2
      · exact Or.inr (by simp [h2])
    · exact Or.inr (by simp [h1])

lemma groupFor_eq_nil_of_not_mem (groups : List (String × List String)) (h : String)
    (hk : h ∉ groups.map Prod.fst) : groupFor groups h = [] := by
  rw [groupFor, List.find?_eq_none.mpr]
  intro g hg hbeq
  exact hk (List.mem_map.mpr ⟨g, hg, by simpa using hbeq⟩)

end Scanner

/-- C10: a digest under which no file was hashed during the session maps
to the empty list under `getFilesByHash` (`duplicateFiles.get(hash) || []`
at line 680 — never `undefined`, never an error), and a path that was
never hashed maps to `none` under `getFileHash` (`hashMap.get(filePath)`
at line 651, JS `undefined`).  Session states are generated by the
sequence of successful hash-record insertions from the reset state —
`recordHash` is the only writer of the two maps. -/
theorem C10_unknown_digest_and_path (recs : List Scanner.HashInsertion) (h p : String)
    (hd : ∀ r ∈ recs, r.digest ≠ h) (hp : ∀ r ∈ recs, r.path ≠ p) :
    Scanner.getFilesByHash (Scanner.applyHashRecords recs Scanner.initialState) h = [] ∧
    Scanner.getFileHash (Scanner.applyHashRecords recs Scanner.initialState) p = none := by
  constructor
  · apply Scanner.groupFor_eq_nil_of_not_mem
    intro hmem
    rcases Scanner.applyHashRecords_dupFiles_keys recs Scanner.initialState h hmem with h1 | h1
    · simp [Scanner.initialState] at h1
    · obtain ⟨r, hr, hrd⟩ := List.mem_map.mp h1
      exact hd r hr hrd
  · rw [Scanner.getFileHash, Scanner.applyHashRecords_hashMap]
    rw [List.find?_eq_none.mpr]
    · rfl
    · intro e he hbeq
      simp [Scanner.initialState] at he
      obtain ⟨r, hr, rfl⟩ := he
      exact hp r hr (by simpa using hbeq)

/-- C10, witness: after inserting one record, an unrelated digest maps to
the empty list and an unrelated path to `none`. -/
theorem C10_unknown_digest_and_path_witness :
    Scanner.getFilesByHash (Scanner.applyHashRecords
      [⟨"f.txt", "d1", Scanner.HashMethod.full⟩] Scanner.initialState) "zz" = [] ∧
    Scanner.getFileHash (Scanner.applyHashRecords
      [⟨"f.txt", "d1", Scanner.HashMethod.full⟩] Scanner.initialState) "g.txt" = none :=
  C10_unknown_digest_and_path [⟨"f.txt", "d1", Scanner.HashMethod.full⟩] "zz" "g.txt"
    (by decide) (by decide)
